import Mathlib

/-!
Verification development for the fluvio-connectors Postgres CDC source.

The authoritative source is `rust-connectors/sources/postgres/src/connect.rs`
(`PgConnector::new`, `PgConnector::process_stream`, `PgConnector::process_event`).
The wire-message and domain-event types live in external crates
(`postgres_protocol`, `fluvio_model_postgres`) and the event converter
(`crate::convert::convert_replication_event`) is not part of the sources at
hand; those pieces are modelled from the specification and are marked as such.

Machine integers (LSNs, relation ids) are modelled as `Nat`; the only place a
fixed width matters is the `as i64` cast of the keepalive timestamp, modelled
explicitly by `i64ofNat`.  Fallible operations return pairs with an
`Option PgError` component mirroring Rust's in-place mutation on early return,
or `Except` where the Rust code returns `Result`.  External effects (the
downstream producer, the transform, the wall clock) enter as explicit
parameters so every definition stays executable.
-/

/-- Modelled from the spec (§3, the `fluvio_model_postgres::Column` type is not
in the sources): a column has a name, a type identifier, a format flag
(text/binary) and a replica-identity/key flag. -/
structure Column where
  name : String
  typeId : Int
  isBinary : Bool
  isKeyPart : Bool
deriving DecidableEq, Repr

/-- Modelled from the spec (§3): a raw/decoded tuple value.  A column
explicitly marked unchanged (TOAST-omitted) is a distinct marker, not null.
Value decoding by type id is not needed by any claim and values are carried
through verbatim. -/
inductive RawValue where
  | null
  | unchangedToast
  | text (s : String)
  | binary (bytes : List Nat)
deriving DecidableEq, Repr

/-- Modelled from the spec (§3/§4.4, the `postgres_protocol` logical
replication message type is not in the sources): the body of an `XLogData`
frame. -/
inductive PgLogicalMsg where
  | begin (finalLsn : Nat) (timestamp : Int) (xid : Nat)
  | commit (flags : Nat) (commitLsn : Nat) (endLsn : Nat) (timestamp : Int)
  | origin (commitLsn : Nat) (name : String)
  | relation (relId : Nat) (namespc : String) (name : String) (columns : List Column)
  | typeInfo (id : Nat) (namespc : String) (name : String)
  | insert (relId : Nat) (newRaw : List RawValue)
  | update (relId : Nat) (oldRaw : Option (List RawValue)) (newRaw : List RawValue)
  | delete (relId : Nat) (oldRaw : List RawValue)
  | truncate (relIds : List Nat) (options : Nat)
deriving DecidableEq, Repr

/-- Modelled from the spec: an `XLogData` frame carries WAL positions, the
server timestamp and a logical message body. -/
structure XLogData where
  wal_start : Nat
  wal_end : Nat
  timestamp : Int
  body : PgLogicalMsg
deriving DecidableEq, Repr

/-- Modelled from the spec (§3, the `fluvio_model_postgres` message type is
not in the sources): the converted message variant of a Domain Event.  Data
variants carry tuples as ordered (column name, value) pairs. -/
inductive LogicalReplicationMessage where
  | begin (finalLsn : Nat) (timestamp : Int) (xid : Nat)
  | commit (flags : Nat) (commit_lsn : Nat) (end_lsn : Nat) (timestamp : Int)
  | origin (commitLsn : Nat) (name : String)
  | relation (rel_id : Nat) (namespc : String) (name : String) (columns : List Column)
  | typeInfo (id : Nat) (namespc : String) (name : String)
  | insert (relId : Nat) (newTuple : List (String × RawValue))
  | update (relId : Nat) (oldTuple : Option (List (String × RawValue)))
      (newTuple : List (String × RawValue))
  | delete (relId : Nat) (oldTuple : List (String × RawValue))
  | truncate (relIds : List Nat) (options : Nat)
deriving DecidableEq, Repr

/-- Modelled from the spec (§3, `fluvio_model_postgres::ReplicationEvent` is
not in the sources): the Domain Event `{ lsn, server timestamp, message }`.
`wal_end` is the event's LSN as read by `PgConnector::new` (connect.rs:97). -/
structure ReplicationEvent where
  wal_start : Nat
  wal_end : Nat
  timestamp : Int
  message : LogicalReplicationMessage
deriving DecidableEq, Repr

/-- Modelled from the spec (§6, the `postgres_protocol` frame type is not in
the sources): one wire message of the replication stream.  `other` stands for
the remaining frame kinds, which connect.rs:218 ignores. -/
inductive ReplicationMessage where
  | xLogData (x : XLogData)
  | primaryKeepAlive (wal_end : Nat) (timestamp : Int) (reply : Nat)
  | other
deriving DecidableEq, Repr

/-- The relation schema cache `BTreeMap<u32, Vec<Column>>` (connect.rs:37),
embedded as an association list whose most recent binding wins. -/
abbrev RelCache := List (Nat × List Column)

/-- Map lookup on the relation cache: first binding for the key. -/
def cacheLookup (r : Nat) : RelCache → Option (List Column)
  | [] => none
  | (k, cols) :: rest => if k = r then some cols else cacheLookup r rest

/-- Map insert on the relation cache: `BTreeMap::insert` overwrites, embedded
as a front binding that shadows older ones (connect.rs:200). -/
def cacheInsert (r : Nat) (cols : List Column) (c : RelCache) : RelCache :=
  (r, cols) :: c

/-- Conversion errors of the event converter.  Per the spec (§4.3/§7) a
relation id missing from the cache is the conversion error for that message. -/
inductive ConvErr where
  | unknownRelation (relId : Nat)
deriving DecidableEq, Repr

/-- Message-level errors of `process_event`: conversion failure, transform
failure, or a failed downstream send. -/
inductive PgError where
  | conversion (e : ConvErr)
  | transform (msg : String)
  | sendFailed
deriving DecidableEq, Repr

/-- Observable downstream/upstream effects of `process_event`: a single
keyless record send (connect.rs:194), an atomic batch send (connect.rs:189),
or a standby status update (connect.rs:214). -/
inductive Output where
  | send (json : String)
  | sendBatch (records : List String)
  | statusUpdate (written : Nat) (flushed : Nat) (applied : Nat) (ts : Int) (reply : Nat)
deriving DecidableEq, Repr

/-- The mutable session state touched by `process_event`: the relation cache
(`self.relations`, connect.rs:37) and the watermark (`last_lsn`,
connect.rs:127). -/
structure ConnState where
  relations : RelCache
  last_lsn : Nat
deriving DecidableEq, Repr

/-- A configured transform: from the encoded input record to either a failure
or the list of successful output record values (`output.successes`,
connect.rs:178-182). -/
abbrev Transform := String → Except String (List String)

/-- Pair positional tuple values with the cached column names (spec §4.4). -/
def pairColumns (cols : List Column) (vals : List RawValue) : List (String × RawValue) :=
  (cols.map (fun c => c.name)).zip vals

/-- Modelled from the spec (§4.4, `crate::convert::convert_replication_event`
is not in the sources): pure conversion of an `XLogData` frame against the
current cache snapshot.  Begin/Commit/Relation/Origin/Type/Truncate convert
unconditionally; Insert/Update/Delete look up the referenced relation id and
fail with `ConvErr.unknownRelation` on a cache miss. -/
def convert_replication_event (relations : RelCache) (x : XLogData) :
    Except ConvErr ReplicationEvent :=
  match x.body with
  | .begin l t xid =>
      .ok ⟨x.wal_start, x.wal_end, x.timestamp, .begin l t xid⟩
  | .commit f c e t =>
      .ok ⟨x.wal_start, x.wal_end, x.timestamp, .commit f c e t⟩
  | .origin c n =>
      .ok ⟨x.wal_start, x.wal_end, x.timestamp, .origin c n⟩
  | .relation r ns nm cols =>
      .ok ⟨x.wal_start, x.wal_end, x.timestamp, .relation r ns nm cols⟩
  | .typeInfo i ns nm =>
      .ok ⟨x.wal_start, x.wal_end, x.timestamp, .typeInfo i ns nm⟩
  | .insert r vals =>
      match cacheLookup r relations with
      | none => .error (.unknownRelation r)
      | some cols =>
          .ok ⟨x.wal_start, x.wal_end, x.timestamp, .insert r (pairColumns cols vals)⟩
  | .update r old new =>
      match cacheLookup r relations with
      | none => .error (.unknownRelation r)
      | some cols =>
          .ok ⟨x.wal_start, x.wal_end, x.timestamp,
            .update r (old.map (pairColumns cols)) (pairColumns cols new)⟩
  | .delete r old =>
      match cacheLookup r relations with
      | none => .error (.unknownRelation r)
      | some cols =>
          .ok ⟨x.wal_start, x.wal_end, x.timestamp, .delete r (pairColumns cols old)⟩
  | .truncate ids opts =>
      .ok ⟨x.wal_start, x.wal_end, x.timestamp, .truncate ids opts⟩

/-- Modelled from the spec (§4.6, serde's derived serializer is external):
render one tuple value. -/
def encodeValue : RawValue → String
  | .null => "null"
  | .unchangedToast => "\"unchanged\""
  | .text s => "\"" ++ s ++ "\""
  | .binary bs => toString bs

/-- Modelled from the spec (§4.6): render a named tuple. -/
def encodeTuple (t : List (String × RawValue)) : String :=
  "\x7b" ++ String.intercalate "," (t.map (fun p => "\"" ++ p.1 ++ "\":" ++ encodeValue p.2)) ++ "\x7d"

/-- Modelled from the spec (§4.6): render the message variant as a tagged
document. -/
def encodeMessage : LogicalReplicationMessage → String
  | .begin l t xid =>
      "\x7b\"begin\":\x7b\"final_lsn\":" ++ toString l ++ ",\"timestamp\":" ++ toString t
        ++ ",\"xid\":" ++ toString xid ++ "\x7d\x7d"
  | .commit f c e t =>
      "\x7b\"commit\":\x7b\"flags\":" ++ toString f ++ ",\"commit_lsn\":" ++ toString c
        ++ ",\"end_lsn\":" ++ toString e ++ ",\"timestamp\":" ++ toString t ++ "\x7d\x7d"
  | .origin c n =>
      "\x7b\"origin\":\x7b\"commit_lsn\":" ++ toString c ++ ",\"name\":\"" ++ n ++ "\"\x7d\x7d"
  | .relation r ns nm cols =>
      "\x7b\"relation\":\x7b\"rel_id\":" ++ toString r ++ ",\"namespace\":\"" ++ ns
        ++ "\",\"name\":\"" ++ nm ++ "\",\"columns\":["
        ++ String.intercalate "," (cols.map (fun c => "\"" ++ c.name ++ "\"")) ++ "]\x7d\x7d"
  | .typeInfo i ns nm =>
      "\x7b\"type\":\x7b\"id\":" ++ toString i ++ ",\"namespace\":\"" ++ ns
        ++ "\",\"name\":\"" ++ nm ++ "\"\x7d\x7d"
  | .insert r new =>
      "\x7b\"insert\":\x7b\"rel_id\":" ++ toString r ++ ",\"new\":" ++ encodeTuple new ++ "\x7d\x7d"
  | .update r old new =>
      "\x7b\"update\":\x7b\"rel_id\":" ++ toString r ++ ",\"old\":"
        ++ (match old with | none => "null" | some o => encodeTuple o)
        ++ ",\"new\":" ++ encodeTuple new ++ "\x7d\x7d"
  | .delete r old =>
      "\x7b\"delete\":\x7b\"rel_id\":" ++ toString r ++ ",\"old\":" ++ encodeTuple old ++ "\x7d\x7d"
  | .truncate ids opts =>
      "\x7b\"truncate\":\x7b\"rel_ids\":" ++ toString ids ++ ",\"options\":" ++ toString opts ++ "\x7d\x7d"

/-- Modelled from the spec (§4.6): the canonical JSON-shaped encoding of a
Domain Event (`serde_json::to_string(&event)`, connect.rs:173), treated as
total. -/
def encodeEvent (e : ReplicationEvent) : String :=
  "\x7b\"wal_start\":" ++ toString e.wal_start ++ ",\"wal_end\":" ++ toString e.wal_end
    ++ ",\"timestamp\":" ++ toString e.timestamp ++ ",\"message\":" ++ encodeMessage e.message ++ "\x7d"

/-- `slice::chunks(n)`: successive sub-lists of length `n`, the last possibly
shorter; the empty list yields no chunks (connect.rs:182). -/
def chunksOf (n : Nat) (l : List α) : List (List α) :=
  match l with
  | [] => []
  | x :: xs =>
      if _hn : n = 0 then []
      else (x :: xs).take n :: chunksOf n ((x :: xs).drop n)
termination_by l.length
decreasing_by
  simp only [List.length_drop, List.length_cons]
  omega

/-- The batch loop of connect.rs:187-190: send each batch in order; `sendOk i`
tells whether the `i`-th `send_all` succeeds; on the first failure the loop
aborts with the error, keeping the batches already emitted. -/
def emitBatches (sendOk : Nat → Bool) : Nat → List (List String) → List Output × Option PgError
  | _, [] => ([], none)
  | i, b :: rest =>
      if sendOk i then
        let r := emitBatches sendOk (i + 1) rest
        (Output.sendBatch b :: r.1, r.2)
      else ([], some PgError.sendFailed)

/-- The emission step of connect.rs:175-196: with a transform, feed the
encoded record through it and send the successful outputs in batches of 100;
without one, send the single encoded record with a null key. -/
def emitEvent (smart : Option Transform) (sendOk : Nat → Bool) (json : String) :
    List Output × Option PgError :=
  match smart with
  | some f =>
      match f json with
      | .error e => ([], some (PgError.transform e))
      | .ok successes => emitBatches sendOk 0 (chunksOf 100 successes)
  | none =>
      if sendOk 0 then ([Output.send json], none) else ([], some PgError.sendFailed)

/-- The post-emission state update of connect.rs:198-206: register a Relation
in the cache, advance the watermark to a Commit's `commit_lsn`, leave the
state alone otherwise. -/
def applyStateUpdate (st : ConnState) (m : LogicalReplicationMessage) : ConnState :=
  match m with
  | .relation r _ _ cols => { st with relations := cacheInsert r cols st.relations }
  | .commit _ c _ _ => { st with last_lsn := c }
  | _ => st

/-- `PgConnector::process_event` (connect.rs:164-222).  `sendOk` is the
success oracle for the downstream/upstream sends of this one message and `ts`
is the session clock reading used for a keepalive reply.  The result carries
the state as left by Rust's in-place mutation together with the emitted
outputs and the error, if any. -/
def process_event (smart : Option Transform) (sendOk : Nat → Bool) (ts : Int)
    (st : ConnState) (m : ReplicationMessage) : ConnState × List Output × Option PgError :=
  match m with
  | .xLogData x =>
      match convert_replication_event st.relations x with
      | .error e => (st, [], some (PgError.conversion e))
      | .ok ev =>
          match emitEvent smart sendOk (encodeEvent ev) with
          | (outs, some e) => (st, outs, some e)
          | (outs, none) => (applyStateUpdate st ev.message, outs, none)
  | .primaryKeepAlive _ _ reply =>
      if reply = 1 then
        if sendOk 0 then
          (st, [Output.statusUpdate st.last_lsn st.last_lsn st.last_lsn ts 0], none)
        else (st, [], some PgError.sendFailed)
      else (st, [], none)
  | .other => (st, [], none)

/-- The receive loop of `PgConnector::process_stream` (connect.rs:151-161):
each stream item is either a wire message or a stream-level error.  A
message-level `process_event` error is logged and the loop continues with the
next message from the mutated state; a stream-level error ends the loop and is
returned.  `sendOk k` is the send oracle for the `k`-th message. -/
def process_stream (smart : Option Transform) (sendOk : Nat → Nat → Bool) (ts : Int) :
    ConnState → Nat → List (Except String ReplicationMessage) → Except String ConnState
  | st, _, [] => .ok st
  | _, _, .error e :: _ => .error e
  | st, k, .ok m :: rest =>
      process_stream smart sendOk ts (process_event smart (sendOk k) ts st m).1 (k + 1) rest

/-- The all-sends-succeed oracle (normal operation). -/
def allOk : Nat → Bool := fun _ => true

/-- One loop iteration's state transition under normal operation. -/
def stepState (smart : Option Transform) (ts : Int) (st : ConnState) (m : ReplicationMessage) :
    ConnState :=
  (process_event smart allOk ts st m).1

/-- The state reached after processing a message list under normal operation,
threading state exactly as the receive loop does. -/
def runState (smart : Option Transform) (ts : Int) (st : ConnState)
    (msgs : List ReplicationMessage) : ConnState :=
  msgs.foldl (stepState smart ts) st

/-- The outputs emitted while processing one message under normal operation. -/
def stepOutputs (smart : Option Transform) (ts : Int) (st : ConnState) (m : ReplicationMessage) :
    List Output :=
  (process_event smart allOk ts st m).2.1

/-- The message-level error of one message under normal operation. -/
def stepErr (smart : Option Transform) (ts : Int) (st : ConnState) (m : ReplicationMessage) :
    Option PgError :=
  (process_event smart allOk ts st m).2.2

/-- An uppercase hexadecimal digit. -/
def hexDigitChar (d : Nat) : Char :=
  if d < 10 then Char.ofNat (48 + d) else Char.ofNat (55 + d)

/-- Uppercase hexadecimal digits of a positive number, most significant
first. -/
def natToHexAux (n : Nat) : List Char :=
  if n = 0 then [] else natToHexAux (n / 16) ++ [hexDigitChar (n % 16)]
termination_by n
decreasing_by exact Nat.div_lt_self (Nat.pos_of_ne_zero (by assumption)) (by omega)

/-- Uppercase hexadecimal rendering (Rust's `{:X}`). -/
def natToHex (n : Nat) : String :=
  if n = 0 then "0" else ⟨natToHexAux n⟩

/-- Modelled from the spec (§3, the driver's `PgLsn` `Display` is external):
the server-native textual form of an LSN, `high/low` in uppercase hex. -/
def pgLsnDisplay (lsn : Nat) : String :=
  natToHex (lsn / 2 ^ 32) ++ "/" ++ natToHex (lsn % 2 ^ 32)

/-- The resume discovery of `PgConnector::new` (connect.rs:84-102).  The input
is the outcome of the bounded tail read: `none` when no record arrived before
the timeout, otherwise the record's decode result (`serde_json::from_slice`,
external, abstracted as the already-decoded outcome).  Absence yields no
resume point; a decode failure propagates as a fatal initialization error; a
decoded event yields its `wal_end` as the resume LSN. -/
def discoverResume (decoded : Option (Except String ReplicationEvent)) :
    Except String (Option Nat) :=
  match decoded with
  | none => .ok none
  | some (.error e) => .error e
  | some (.ok ev) => .ok (some ev.wal_end)

/-- The replication start command of `process_stream` (connect.rs:130-137). -/
def startReplicationQuery (slot publication : String) (last_lsn : Nat) : String :=
  "START_REPLICATION SLOT \"" ++ slot ++ "\" LOGICAL " ++ pgLsnDisplay last_lsn
    ++ " (\"proto_version\" \x271\x27, \"publication_names\" \x27" ++ publication ++ "\x27)"

/-- Composition of `new`'s resume discovery with `process_stream`'s command
construction: the discovered LSN (or `PgLsn::from(0)` when absent,
connect.rs:127) is spliced into the start command. -/
def sessionStartQuery (slot publication : String)
    (decoded : Option (Except String ReplicationEvent)) : Except String String :=
  match discoverResume decoded with
  | .error e => .error e
  | .ok lsnOpt => .ok (startReplicationQuery slot publication (lsnOpt.getD 0))

/-- connect.rs:22. -/
def TIME_SEC_CONVERSION : Nat := 946684800

/-- The `as i64` cast: reduce modulo `2 ^ 64` and reinterpret the high range
as negative. -/
def i64ofNat (n : Nat) : Int :=
  if n % 2 ^ 64 < 2 ^ 63 then (n % 2 ^ 64 : Nat) else (n % 2 ^ 64 : Nat) - 2 ^ 64

/-- The keepalive clock reading of connect.rs:211:
`EPOCH.elapsed().unwrap().as_micros() as i64` with
`EPOCH = UNIX_EPOCH + TIME_SEC_CONVERSION` seconds (connect.rs:23-24).  The
input is the wall clock in microseconds since the Unix epoch; a clock before
the Postgres epoch makes `unwrap` panic, modelled as `none`. -/
def keepaliveTimestamp (nowUnixMicros : Nat) : Option Int :=
  if nowUnixMicros < TIME_SEC_CONVERSION * 1000000 then none
  else some (i64ofNat (nowUnixMicros - TIME_SEC_CONVERSION * 1000000))

/-- The commit LSN carried by a wire message, when it is a Commit. -/
def commitLsnOf : ReplicationMessage → Option Nat
  | .xLogData x =>
      match x.body with
      | .commit _ c _ _ => some c
      | _ => none
  | _ => none

/-- The commit LSNs of a message list, in stream order. -/
def commitLsnsOf (msgs : List ReplicationMessage) : List Nat :=
  msgs.filterMap commitLsnOf

/-- Specification-side watermark: the last commit LSN of the list, or the
starting value when there is none. -/
def wmOf (init : Nat) (msgs : List ReplicationMessage) : Nat :=
  msgs.foldl (fun w m => (commitLsnOf m).getD w) init

/-- The last element of a list, or a default. -/
def lastD (l : List Nat) (d : Nat) : Nat :=
  l.foldl (fun _ c => c) d

/-- Whether a wire message is a Relation message for relation id `r`. -/
def isRelationFor (r : Nat) (m : ReplicationMessage) : Bool :=
  match m with
  | .xLogData x =>
      match x.body with
      | .relation rel _ _ _ => rel == r
      | _ => false
  | _ => false

/-- The relation id referenced by a data message body, if any. -/
def dataRelId : PgLogicalMsg → Option Nat
  | .insert r _ => some r
  | .update r _ _ => some r
  | .delete r _ => some r
  | _ => none

/-- Specification-side cache transition: a Relation message registers its
columns, every other message leaves the cache alone. -/
def relCacheUpd (c : RelCache) (m : ReplicationMessage) : RelCache :=
  match m with
  | .xLogData x =>
      match x.body with
      | .relation r _ _ cols => cacheInsert r cols c
      | _ => c
  | _ => c

/-- Specification-side cache contents after a message list. -/
def relCacheOf (c : RelCache) (msgs : List ReplicationMessage) : RelCache :=
  msgs.foldl relCacheUpd c

/-! ## Helper lemmas -/

theorem chunksOf_nil {α : Type _} (n : Nat) : chunksOf n ([] : List α) = [] := by
  rw [chunksOf]

theorem chunksOf_cons {α : Type _} {n : Nat} (hn : 0 < n) (x : α) (xs : List α) :
    chunksOf n (x :: xs) = (x :: xs).take n :: chunksOf n ((x :: xs).drop n) := by
  rw [chunksOf]
  simp [Nat.pos_iff_ne_zero.mp hn]

theorem chunksOf_eq_nil_iff {α : Type _} {n : Nat} (hn : 0 < n) (l : List α) :
    chunksOf n l = [] ↔ l = [] := by
  cases l with
  | nil => simp [chunksOf_nil]
  | cons x xs => simp [chunksOf_cons hn]

theorem chunksOf_flatten {α : Type _} {n : Nat} (hn : 0 < n) :
    ∀ l : List α, (chunksOf n l).flatten = l
  | [] => by simp [chunksOf_nil]
  | x :: xs => by
      rw [chunksOf_cons hn, List.flatten_cons,
        chunksOf_flatten hn ((x :: xs).drop n), List.take_append_drop]
termination_by l => l.length
decreasing_by
  simp only [List.length_drop, List.length_cons]
  omega

theorem chunksOf_length {α : Type _} {n : Nat} (hn : 0 < n) :
    ∀ l : List α, (chunksOf n l).length = (l.length + n - 1) / n
  | [] => by
      rw [chunksOf_nil]
      simp only [List.length_nil, Nat.zero_add]
      exact (Nat.div_eq_of_lt (by omega)).symm
  | x :: xs => by
      rw [chunksOf_cons hn]
      rw [List.length_cons, chunksOf_length hn ((x :: xs).drop n)]
      simp only [List.length_drop, List.length_cons]
      rcases Nat.lt_or_ge n (xs.length + 1) with hlt | hge
      · have heq : xs.length + 1 + n - 1 = (xs.length + 1 - n + n - 1) + n := by omega
        rw [heq, Nat.add_div_right _ hn]
      · have h0 : xs.length + 1 - n = 0 := by omega
        rw [h0]
        have h1 : (0 + n - 1) / n = 0 := Nat.div_eq_of_lt (by omega)
        have h2 : (xs.length + 1 + n - 1) / n = 1 := by
          apply Nat.div_eq_of_lt_le <;> omega
        rw [h1, h2]
termination_by l => l.length
decreasing_by
  simp only [List.length_drop, List.length_cons]
  omega

theorem chunksOf_dropLast_length {α : Type _} {n : Nat} (hn : 0 < n) :
    ∀ (l : List α) (b : List α), b ∈ (chunksOf n l).dropLast → b.length = n
  | [], b => by simp [chunksOf_nil]
  | x :: xs, b => by
      rw [chunksOf_cons hn]
      cases hr : chunksOf n ((x :: xs).drop n) with
      | nil => simp
      | cons c cs =>
          intro hb
          rw [List.dropLast_cons₂] at hb
          rcases List.mem_cons.mp hb with hbtake | hbrest
          · have hdrop : (x :: xs).drop n ≠ [] := by
              intro hcon
              rw [hcon, chunksOf_nil] at hr
              exact List.noConfusion hr
            have hlen : n < (x :: xs).length := by
              have := List.length_pos.mpr hdrop
              simp only [List.length_drop] at this
              omega
            rw [hbtake, List.length_take]
            omega
          · exact chunksOf_dropLast_length hn ((x :: xs).drop n) b (hr ▸ hbrest)
termination_by l _ => l.length
decreasing_by
  simp only [List.length_drop, List.length_cons]
  omega

theorem emitBatches_allOk (bs : List (List String)) :
    ∀ k, emitBatches allOk k bs = (bs.map Output.sendBatch, none) := by
  induction bs with
  | nil => intro k; rfl
  | cons b rest ih =>
      intro k
      simp [emitBatches, allOk, ih (k + 1)]

theorem emitEvent_none_allOk (j : String) :
    emitEvent none allOk j = ([Output.send j], none) := rfl

theorem cacheLookup_insert (r r' : Nat) (cols : List Column) (c : RelCache) :
    cacheLookup r (cacheInsert r' cols c) =
      if r' = r then some cols else cacheLookup r c := rfl

theorem step_relations (ts : Int) (st : ConnState) (m : ReplicationMessage) :
    (process_event none allOk ts st m).1.relations = relCacheUpd st.relations m := by
  cases m with
  | xLogData x =>
      cases hb : x.body with
      | insert r vals =>
          cases hc : cacheLookup r st.relations <;>
            simp [process_event, convert_replication_event, hb, hc,
              emitEvent_none_allOk, applyStateUpdate, relCacheUpd]
      | update r old new =>
          cases hc : cacheLookup r st.relations <;>
            simp [process_event, convert_replication_event, hb, hc,
              emitEvent_none_allOk, applyStateUpdate, relCacheUpd]
      | delete r old =>
          cases hc : cacheLookup r st.relations <;>
            simp [process_event, convert_replication_event, hb, hc,
              emitEvent_none_allOk, applyStateUpdate, relCacheUpd]
      | _ =>
          simp [process_event, convert_replication_event, hb,
            emitEvent_none_allOk, applyStateUpdate, relCacheUpd]
  | primaryKeepAlive w t r =>
      by_cases hr : r = 1 <;> simp [process_event, allOk, hr, relCacheUpd]
  | other => rfl

theorem step_last_lsn (ts : Int) (st : ConnState) (m : ReplicationMessage) :
    (process_event none allOk ts st m).1.last_lsn = (commitLsnOf m).getD st.last_lsn := by
  cases m with
  | xLogData x =>
      cases hb : x.body with
      | insert r vals =>
          cases hc : cacheLookup r st.relations <;>
            simp [process_event, convert_replication_event, hb, hc,
              emitEvent_none_allOk, applyStateUpdate, commitLsnOf]
      | update r old new =>
          cases hc : cacheLookup r st.relations <;>
            simp [process_event, convert_replication_event, hb, hc,
              emitEvent_none_allOk, applyStateUpdate, commitLsnOf]
      | delete r old =>
          cases hc : cacheLookup r st.relations <;>
            simp [process_event, convert_replication_event, hb, hc,
              emitEvent_none_allOk, applyStateUpdate, commitLsnOf]
      | _ =>
          simp [process_event, convert_replication_event, hb,
            emitEvent_none_allOk, applyStateUpdate, commitLsnOf]
  | primaryKeepAlive w t r =>
      by_cases hr : r = 1 <;> simp [process_event, allOk, hr, commitLsnOf]
  | other => rfl

theorem runState_relations (ts : Int) (msgs : List ReplicationMessage) :
    ∀ st : ConnState, (runState none ts st msgs).relations = relCacheOf st.relations msgs := by
  induction msgs with
  | nil => intro st; rfl
  | cons m rest ih =>
      intro st
      show (runState none ts (stepState none ts st m) rest).relations = _
      rw [ih]
      simp only [relCacheOf, List.foldl_cons]
      rw [show (stepState none ts st m).relations = relCacheUpd st.relations m from
        step_relations ts st m]

theorem runState_last_lsn (ts : Int) (msgs : List ReplicationMessage) :
    ∀ st : ConnState, (runState none ts st msgs).last_lsn = wmOf st.last_lsn msgs := by
  induction msgs with
  | nil => intro st; rfl
  | cons m rest ih =>
      intro st
      show (runState none ts (stepState none ts st m) rest).last_lsn = _
      rw [ih]
      simp only [wmOf, List.foldl_cons]
      rw [show (stepState none ts st m).last_lsn = (commitLsnOf m).getD st.last_lsn from
        step_last_lsn ts st m]

theorem lookup_relCacheOf (r : Nat) (msgs : List ReplicationMessage) :
    ∀ c : RelCache,
      (cacheLookup r (relCacheOf c msgs)).isSome =
        (msgs.any (isRelationFor r) || (cacheLookup r c).isSome) := by
  induction msgs with
  | nil => intro c; simp [relCacheOf]
  | cons m rest ih =>
      intro c
      show (cacheLookup r (relCacheOf (relCacheUpd c m) rest)).isSome = _
      rw [ih]
      cases m with
      | xLogData x =>
          cases hb : x.body with
          | relation rel ns nm cols =>
              by_cases hrel : rel = r
              · simp [relCacheUpd, hb, cacheLookup_insert, hrel, isRelationFor,
                  Bool.or_comm, Bool.or_left_comm]
              · have hbe : (rel == r) = false := by simp [hrel]
                simp [relCacheUpd, hb, cacheLookup_insert, hrel, isRelationFor, hbe,
                  Bool.or_comm, Bool.or_left_comm]
          | _ => simp [relCacheUpd, hb, isRelationFor]
      | primaryKeepAlive w t rp => simp [relCacheUpd, isRelationFor]
      | other => simp [relCacheUpd, isRelationFor]

/-! ## Claim theorems -/

/-- C1: if the output log's most recent record decodes successfully to a
Domain Event whose lsn (`wal_end`) is L, a freshly started session uses
exactly L (not L+1) as the resume point, and the replication start command it
issues is `START_REPLICATION SLOT "<slot>" LOGICAL L ("proto_version" '1',
"publication_names" '<publication>')` with L as the starting position. -/
theorem c1_resume_exact_lsn (slot publication : String) (ev : ReplicationEvent) :
    discoverResume (some (Except.ok ev)) = Except.ok (some ev.wal_end)
    ∧ sessionStartQuery slot publication (some (Except.ok ev)) =
        Except.ok ("START_REPLICATION SLOT \"" ++ slot ++ "\" LOGICAL "
          ++ pgLsnDisplay ev.wal_end
          ++ " (\"proto_version\" \x271\x27, \"publication_names\" \x27" ++ publication ++ "\x27)") :=
  ⟨rfl, rfl⟩

/-- C7: the resume read distinguishes two outcomes: when no tail record is
found before the timeout, initialization succeeds with no resume point and the
start command uses the default position (LSN 0); when a tail record is found
but fails to decode, initialization fails with a fatal error. -/
theorem c7_resume_error_split (slot publication : String) (e : String) :
    discoverResume none = Except.ok none
    ∧ sessionStartQuery slot publication none =
        Except.ok (startReplicationQuery slot publication 0)
    ∧ discoverResume (some (Except.error e)) = Except.error e
    ∧ sessionStartQuery slot publication (some (Except.error e)) = Except.error e :=
  ⟨rfl, rfl, rfl, rfl⟩

/-- C4: the client timestamp of a keepalive status update is the elapsed
microseconds since 2000-01-01T00:00:00Z: at wall-clock Unix time T seconds
(on or after that epoch, with the value in `i64` range), the clock reading is
`(T - 946684800) * 1000000`, and the status update emitted for a
reply-requested keepalive carries exactly that value. -/
theorem c4_keepalive_timestamp (T : Nat) (st : ConnState) (w : Nat) (t : Int)
    (hT : 946684800 ≤ T) (hb : (T - 946684800) * 1000000 < 2 ^ 63) :
    keepaliveTimestamp (T * 1000000) = some (((T : Int) - 946684800) * 1000000)
    ∧ stepOutputs none (((T : Int) - 946684800) * 1000000) st
        (ReplicationMessage.primaryKeepAlive w t 1) =
        [Output.statusUpdate st.last_lsn st.last_lsn st.last_lsn
          (((T : Int) - 946684800) * 1000000) 0] := by
  constructor
  · rw [keepaliveTimestamp]
    rw [if_neg (by simp only [TIME_SEC_CONVERSION]; omega)]
    rw [i64ofNat]
    simp only [TIME_SEC_CONVERSION]
    have h2 : T * 1000000 - 946684800 * 1000000 = (T - 946684800) * 1000000 := by omega
    rw [h2]
    have h3 : (T - 946684800) * 1000000 % 2 ^ 64 = (T - 946684800) * 1000000 :=
      Nat.mod_eq_of_lt (by omega)
    rw [h3, if_pos hb]
    simp only [Option.some.injEq]
    omega
  · rfl

/-- C4 witness at T = 946684801. -/
theorem c4_keepalive_timestamp_witness :
    keepaliveTimestamp (946684801 * 1000000) =
        some ((((946684801 : Nat) : Int) - 946684800) * 1000000)
    ∧ stepOutputs none ((((946684801 : Nat) : Int) - 946684800) * 1000000) ⟨[], 42⟩
        (ReplicationMessage.primaryKeepAlive 5 7 1) =
        [Output.statusUpdate 42 42 42 ((((946684801 : Nat) : Int) - 946684800) * 1000000) 0] :=
  c4_keepalive_timestamp 946684801 ⟨[], 42⟩ 5 7 (by norm_num) (by norm_num)

/-- C10: when `process_event` fails at any point — conversion error, transform
failure, or downstream send failure — both the relation cache and the
watermark are left exactly as they were before the message. -/
theorem c10_error_atomicity (smart : Option Transform) (sendOk : Nat → Bool) (ts : Int)
    (st : ConnState) (m : ReplicationMessage) (st' : ConnState) (outs : List Output)
    (e : PgError) (h : process_event smart sendOk ts st m = (st', outs, some e)) :
    st'.relations = st.relations ∧ st'.last_lsn = st.last_lsn := by
  unfold process_event at h
  repeat' split at h
  all_goals simp only [Prod.mk.injEq] at h
  all_goals
    first
    | exact Option.noConfusion h.2.2
    | (obtain ⟨h1, h2, h3⟩ := h; subst h1; exact ⟨rfl, rfl⟩)

/-- C10 witness: a conversion failure (unknown relation id) leaves the state
untouched. -/
theorem c10_error_atomicity_witness :
    process_event none allOk 0 ⟨[], 3⟩
        (ReplicationMessage.xLogData ⟨1, 2, 0, PgLogicalMsg.insert 7 []⟩) =
      (⟨[], 3⟩, [], some (PgError.conversion (ConvErr.unknownRelation 7)))
    ∧ ((⟨[], 3⟩ : ConnState).relations = (⟨[], 3⟩ : ConnState).relations
        ∧ (⟨[], 3⟩ : ConnState).last_lsn = (⟨[], 3⟩ : ConnState).last_lsn) :=
  ⟨by decide,
    c10_error_atomicity none allOk 0 ⟨[], 3⟩
      (ReplicationMessage.xLogData ⟨1, 2, 0, PgLogicalMsg.insert 7 []⟩) ⟨[], 3⟩ []
      (PgError.conversion (ConvErr.unknownRelation 7)) (by decide)⟩

/-- C2: on a primary keepalive, a standby status update is sent if and only if
the keepalive's reply-requested flag is 1; the update carries the current
watermark — the last committed LSN of the messages processed so far (not the
last LSN merely seen) — in all three LSN fields, and its own reply-requested
field is 0. -/
theorem c2_keepalive_watermark (msgs : List ReplicationMessage) (ts : Int) (init : Nat)
    (i : Nat) (h : i < msgs.length) (w : Nat) (t : Int) (r : Nat)
    (hm : msgs[i] = ReplicationMessage.primaryKeepAlive w t r) :
    stepOutputs none ts (runState none ts ⟨[], init⟩ (msgs.take i)) msgs[i] =
      if r = 1 then
        [Output.statusUpdate (wmOf init (msgs.take i)) (wmOf init (msgs.take i))
          (wmOf init (msgs.take i)) ts 0]
      else [] := by
  rw [hm]
  have hlsn : (runState none ts ⟨[], init⟩ (msgs.take i)).last_lsn = wmOf init (msgs.take i) :=
    runState_last_lsn ts (msgs.take i) ⟨[], init⟩
  by_cases hr : r = 1
  · simp [stepOutputs, process_event, hr, allOk, hlsn]
  · simp [stepOutputs, process_event, hr]

/-- C2 witness: a commit at LSN 5 followed by a reply-requested keepalive
produces a status update carrying 5 three times with reply 0. -/
theorem c2_keepalive_watermark_witness :
    stepOutputs none 77 (runState none 77 ⟨[], 0⟩
        ([ReplicationMessage.xLogData ⟨1, 2, 0, PgLogicalMsg.commit 0 5 6 0⟩,
          ReplicationMessage.primaryKeepAlive 9 8 1].take 1))
        [ReplicationMessage.xLogData ⟨1, 2, 0, PgLogicalMsg.commit 0 5 6 0⟩,
          ReplicationMessage.primaryKeepAlive 9 8 1][1] =
      (if 1 = 1 then
        [Output.statusUpdate
          (wmOf 0 ([ReplicationMessage.xLogData ⟨1, 2, 0, PgLogicalMsg.commit 0 5 6 0⟩,
            ReplicationMessage.primaryKeepAlive 9 8 1].take 1))
          (wmOf 0 ([ReplicationMessage.xLogData ⟨1, 2, 0, PgLogicalMsg.commit 0 5 6 0⟩,
            ReplicationMessage.primaryKeepAlive 9 8 1].take 1))
          (wmOf 0 ([ReplicationMessage.xLogData ⟨1, 2, 0, PgLogicalMsg.commit 0 5 6 0⟩,
            ReplicationMessage.primaryKeepAlive 9 8 1].take 1)) 77 0]
      else []) :=
  c2_keepalive_watermark
    [ReplicationMessage.xLogData ⟨1, 2, 0, PgLogicalMsg.commit 0 5 6 0⟩,
      ReplicationMessage.primaryKeepAlive 9 8 1] 77 0 1 (by decide) 9 8 1 (by decide)

/-- C5: with a transform configured that produces N successful output records
for one input event, `process_event` emits exactly the batches
`chunks(100)` of the outputs, in order, with no error; the number of batches
is ceil(N / 100), every non-final batch has exactly 100 records, and the
concatenation of the batches reproduces the transform output exactly. -/
theorem c5_batch_law (st : ConnState) (x : XLogData) (ev : ReplicationEvent)
    (f : Transform) (succ : List String) (ts : Int)
    (hconv : convert_replication_event st.relations x = Except.ok ev)
    (hf : f (encodeEvent ev) = Except.ok succ) :
    process_event (some f) allOk ts st (ReplicationMessage.xLogData x) =
      (applyStateUpdate st ev.message, (chunksOf 100 succ).map Output.sendBatch, none)
    ∧ (chunksOf 100 succ).length = (succ.length + 100 - 1) / 100
    ∧ (∀ b ∈ (chunksOf 100 succ).dropLast, b.length = 100)
    ∧ (chunksOf 100 succ).flatten = succ := by
  refine ⟨?_, chunksOf_length (by omega) succ,
    fun b hb => chunksOf_dropLast_length (by omega) succ b hb,
    chunksOf_flatten (by omega) succ⟩
  simp [process_event, hconv, emitEvent, hf, emitBatches_allOk]

/-- C5 witness: a transform yielding two records produces one batch holding
both, in order. -/
theorem c5_batch_law_witness :
    process_event (some (fun _ => Except.ok ["a", "b"])) allOk 0 ⟨[], 0⟩
        (ReplicationMessage.xLogData ⟨1, 2, 0, PgLogicalMsg.begin 3 0 4⟩) =
      (applyStateUpdate ⟨[], 0⟩
          (ReplicationEvent.mk 1 2 0 (LogicalReplicationMessage.begin 3 0 4)).message,
        (chunksOf 100 ["a", "b"]).map Output.sendBatch, none)
    ∧ (chunksOf 100 ["a", "b"]).length = (["a", "b"].length + 100 - 1) / 100
    ∧ (∀ b ∈ (chunksOf 100 ["a", "b"]).dropLast, b.length = 100)
    ∧ (chunksOf 100 ["a", "b"]).flatten = ["a", "b"] :=
  c5_batch_law ⟨[], 0⟩ ⟨1, 2, 0, PgLogicalMsg.begin 3 0 4⟩
    ⟨1, 2, 0, LogicalReplicationMessage.begin 3 0 4⟩
    (fun _ => Except.ok ["a", "b"]) ["a", "b"] 0 rfl rfl

/-- C6: in a session started with an empty relation cache, a data message
(Insert/Update/Delete) referencing relation id r converts (and processes)
successfully if and only if a Relation message for r appeared earlier in the
session; otherwise processing that message fails with a ConversionError
naming r. -/
theorem c6_data_message_needs_relation (msgs : List ReplicationMessage) (ts : Int)
    (i : Nat) (h : i < msgs.length) (x : XLogData) (r : Nat)
    (hm : msgs[i] = ReplicationMessage.xLogData x) (hr : dataRelId x.body = some r) :
    (stepErr none ts (runState none ts ⟨[], 0⟩ (msgs.take i)) msgs[i] = none ↔
      (msgs.take i).any (isRelationFor r) = true)
    ∧ ((msgs.take i).any (isRelationFor r) = false →
        stepErr none ts (runState none ts ⟨[], 0⟩ (msgs.take i)) msgs[i] =
          some (PgError.conversion (ConvErr.unknownRelation r))) := by
  rw [hm]
  have hrel : (runState none ts ⟨[], 0⟩ (msgs.take i)).relations =
      relCacheOf [] (msgs.take i) :=
    runState_relations ts (msgs.take i) ⟨[], 0⟩
  have hlook : (cacheLookup r (runState none ts ⟨[], 0⟩ (msgs.take i)).relations).isSome =
      (msgs.take i).any (isRelationFor r) := by
    rw [hrel, lookup_relCacheOf r (msgs.take i) []]
    simp [cacheLookup]
  have key : stepErr none ts (runState none ts ⟨[], 0⟩ (msgs.take i))
      (ReplicationMessage.xLogData x) =
      if (msgs.take i).any (isRelationFor r) then none
      else some (PgError.conversion (ConvErr.unknownRelation r)) := by
    rw [← hlook]
    cases hb : x.body with
    | insert rid vals =>
        have hrid : rid = r := by rw [hb] at hr; simpa [dataRelId] using hr
        subst hrid
        cases hc : cacheLookup rid (runState none ts ⟨[], 0⟩ (msgs.take i)).relations with
        | none => simp [stepErr, process_event, convert_replication_event, hb, hc]
        | some cols =>
            simp [stepErr, process_event, convert_replication_event, hb, hc,
              emitEvent_none_allOk]
    | update rid old new =>
        have hrid : rid = r := by rw [hb] at hr; simpa [dataRelId] using hr
        subst hrid
        cases hc : cacheLookup rid (runState none ts ⟨[], 0⟩ (msgs.take i)).relations with
        | none => simp [stepErr, process_event, convert_replication_event, hb, hc]
        | some cols =>
            simp [stepErr, process_event, convert_replication_event, hb, hc,
              emitEvent_none_allOk]
    | delete rid old =>
        have hrid : rid = r := by rw [hb] at hr; simpa [dataRelId] using hr
        subst hrid
        cases hc : cacheLookup rid (runState none ts ⟨[], 0⟩ (msgs.take i)).relations with
        | none => simp [stepErr, process_event, convert_replication_event, hb, hc]
        | some cols =>
            simp [stepErr, process_event, convert_replication_event, hb, hc,
              emitEvent_none_allOk]
    | _ => rw [hb] at hr; simp [dataRelId] at hr
  rw [key]
  cases hany : (msgs.take i).any (isRelationFor r) <;> simp [hany]

/-- C6 witness: an Insert for relation 7 preceded by a Relation message for 7
converts successfully. -/
theorem c6_data_message_needs_relation_witness :
    (stepErr none 0 (runState none 0 ⟨[], 0⟩
        ([ReplicationMessage.xLogData ⟨1, 2, 0, PgLogicalMsg.relation 7 "public" "t" []⟩,
          ReplicationMessage.xLogData ⟨3, 4, 0, PgLogicalMsg.insert 7 []⟩].take 1))
        [ReplicationMessage.xLogData ⟨1, 2, 0, PgLogicalMsg.relation 7 "public" "t" []⟩,
          ReplicationMessage.xLogData ⟨3, 4, 0, PgLogicalMsg.insert 7 []⟩][1] = none ↔
      ([ReplicationMessage.xLogData ⟨1, 2, 0, PgLogicalMsg.relation 7 "public" "t" []⟩,
        ReplicationMessage.xLogData ⟨3, 4, 0, PgLogicalMsg.insert 7 []⟩].take 1).any
          (isRelationFor 7) = true)
    ∧ (([ReplicationMessage.xLogData ⟨1, 2, 0, PgLogicalMsg.relation 7 "public" "t" []⟩,
        ReplicationMessage.xLogData ⟨3, 4, 0, PgLogicalMsg.insert 7 []⟩].take 1).any
          (isRelationFor 7) = false →
        stepErr none 0 (runState none 0 ⟨[], 0⟩
          ([ReplicationMessage.xLogData ⟨1, 2, 0, PgLogicalMsg.relation 7 "public" "t" []⟩,
            ReplicationMessage.xLogData ⟨3, 4, 0, PgLogicalMsg.insert 7 []⟩].take 1))
          [ReplicationMessage.xLogData ⟨1, 2, 0, PgLogicalMsg.relation 7 "public" "t" []⟩,
            ReplicationMessage.xLogData ⟨3, 4, 0, PgLogicalMsg.insert 7 []⟩][1] =
          some (PgError.conversion (ConvErr.unknownRelation 7))) :=
  c6_data_message_needs_relation
    [ReplicationMessage.xLogData ⟨1, 2, 0, PgLogicalMsg.relation 7 "public" "t" []⟩,
      ReplicationMessage.xLogData ⟨3, 4, 0, PgLogicalMsg.insert 7 []⟩] 0 1 (by decide)
    ⟨3, 4, 0, PgLogicalMsg.insert 7 []⟩ 7 (by decide) (by decide)

/-- C8: for every item sequence, message-level processing failures never stop
the receive loop — a run whose stream items are all messages returns
successfully no matter how many per-message errors occur — while the first
stream-level failure makes the loop exit and the run return that error. -/
theorem c8_loop_error_policy (smart : Option Transform) (sendOk : Nat → Nat → Bool) (ts : Int) :
    (∀ (msgs : List ReplicationMessage) (st : ConnState) (k : Nat),
      ∃ st', process_stream smart sendOk ts st k (msgs.map Except.ok) = Except.ok st')
    ∧ (∀ (pre : List ReplicationMessage) (e : String)
        (rest : List (Except String ReplicationMessage)) (st : ConnState) (k : Nat),
        process_stream smart sendOk ts st k
          (pre.map Except.ok ++ Except.error e :: rest) = Except.error e) := by
  constructor
  · intro msgs
    induction msgs with
    | nil => intro st k; exact ⟨st, rfl⟩
    | cons m rest ih =>
        intro st k
        obtain ⟨st', h'⟩ := ih (process_event smart (sendOk k) ts st m).1 (k + 1)
        exact ⟨st', by simpa [process_stream] using h'⟩
  · intro pre e rest
    induction pre with
    | nil => intro st k; rfl
    | cons m ms ih =>
        intro st k
        simpa [process_stream] using ih (process_event smart (sendOk k) ts st m).1 (k + 1)

/-- C9: emission happens before any state update: in a session run, the cache
used to convert the i-th message is exactly the cache built from the strictly
earlier messages, the outputs of the i-th message are computed from that
pre-state cache, and a Relation message's columns appear in the cache only
from position i+1 onwards. -/
theorem c9_emit_before_update (msgs : List ReplicationMessage) (ts : Int)
    (i : Nat) (h : i < msgs.length) (x : XLogData)
    (hm : msgs[i] = ReplicationMessage.xLogData x) :
    (runState none ts ⟨[], 0⟩ (msgs.take i)).relations = relCacheOf [] (msgs.take i)
    ∧ stepOutputs none ts (runState none ts ⟨[], 0⟩ (msgs.take i)) msgs[i] =
        (match convert_replication_event (relCacheOf [] (msgs.take i)) x with
         | .ok ev => [Output.send (encodeEvent ev)]
         | .error _ => [])
    ∧ (∀ rel ns nm cols, x.body = PgLogicalMsg.relation rel ns nm cols →
        (runState none ts ⟨[], 0⟩ (msgs.take (i + 1))).relations =
          cacheInsert rel cols (relCacheOf [] (msgs.take i))) := by
  have h1 : (runState none ts ⟨[], 0⟩ (msgs.take i)).relations = relCacheOf [] (msgs.take i) :=
    runState_relations ts (msgs.take i) ⟨[], 0⟩
  refine ⟨h1, ?_, ?_⟩
  · rw [hm]
    cases hc : convert_replication_event (relCacheOf [] (msgs.take i)) x with
    | error ce => simp [stepOutputs, process_event, h1, hc]
    | ok ev => simp [stepOutputs, process_event, h1, hc, emitEvent_none_allOk]
  · intro rel ns nm cols hb
    have ht : msgs.take (i + 1) = msgs.take i ++ [msgs[i]] := by
      rw [List.take_succ, List.getElem?_eq_getElem h]
      rfl
    rw [ht]
    show (List.foldl (stepState none ts) ⟨[], 0⟩ (msgs.take i ++ [msgs[i]])).relations = _
    rw [List.foldl_append, List.foldl_cons, List.foldl_nil]
    have h2 : (stepState none ts (List.foldl (stepState none ts) ⟨[], 0⟩ (msgs.take i))
        msgs[i]).relations =
        relCacheUpd (List.foldl (stepState none ts) ⟨[], 0⟩ (msgs.take i)).relations msgs[i] :=
      step_relations ts _ msgs[i]
    rw [h2, hm]
    have h1f : (List.foldl (stepState none ts) ⟨[], 0⟩ (msgs.take i)).relations =
        relCacheOf [] (msgs.take i) := h1
    rw [h1f]
    simp [relCacheUpd, hb]

/-- C9 witness: processing a Relation message forwards it downstream and only
then registers it in the cache. -/
theorem c9_emit_before_update_witness :
    ((runState none 0 ⟨[], 0⟩
        ([ReplicationMessage.xLogData ⟨1, 2, 0, PgLogicalMsg.relation 7 "public" "t" []⟩].take 0)).relations =
      relCacheOf []
        ([ReplicationMessage.xLogData ⟨1, 2, 0, PgLogicalMsg.relation 7 "public" "t" []⟩].take 0))
    ∧ stepOutputs none 0 (runState none 0 ⟨[], 0⟩
        ([ReplicationMessage.xLogData ⟨1, 2, 0, PgLogicalMsg.relation 7 "public" "t" []⟩].take 0))
        [ReplicationMessage.xLogData ⟨1, 2, 0, PgLogicalMsg.relation 7 "public" "t" []⟩][0] =
        (match convert_replication_event
            (relCacheOf []
              ([ReplicationMessage.xLogData ⟨1, 2, 0, PgLogicalMsg.relation 7 "public" "t" []⟩].take 0))
            ⟨1, 2, 0, PgLogicalMsg.relation 7 "public" "t" []⟩ with
         | .ok ev => [Output.send (encodeEvent ev)]
         | .error _ => [])
    ∧ (∀ rel ns nm cols,
        (⟨1, 2, 0, PgLogicalMsg.relation 7 "public" "t" []⟩ : XLogData).body =
          PgLogicalMsg.relation rel ns nm cols →
        (runState none 0 ⟨[], 0⟩
          ([ReplicationMessage.xLogData ⟨1, 2, 0, PgLogicalMsg.relation 7 "public" "t" []⟩].take (0 + 1))).relations =
          cacheInsert rel cols
            (relCacheOf []
              ([ReplicationMessage.xLogData ⟨1, 2, 0, PgLogicalMsg.relation 7 "public" "t" []⟩].take 0))) :=
  c9_emit_before_update
    [ReplicationMessage.xLogData ⟨1, 2, 0, PgLogicalMsg.relation 7 "public" "t" []⟩] 0 0
    (by decide) ⟨1, 2, 0, PgLogicalMsg.relation 7 "public" "t" []⟩ (by decide)

theorem lastD_concat (l : List Nat) (c d : Nat) : lastD (l ++ [c]) d = c := by
  simp [lastD, List.foldl_append]

theorem commitLsnsOf_append (p q : List ReplicationMessage) :
    commitLsnsOf (p ++ q) = commitLsnsOf p ++ commitLsnsOf q := by
  simp [commitLsnsOf]

theorem wmOf_lastD : ∀ (msgs : List ReplicationMessage) (init : Nat),
    wmOf init msgs = lastD (commitLsnsOf msgs) init := by
  intro msgs
  induction msgs with
  | nil => intro init; rfl
  | cons m rest ih =>
      intro init
      show wmOf ((commitLsnOf m).getD init) rest = _
      rw [ih]
      cases hcm : commitLsnOf m with
      | none => simp [commitLsnsOf, List.filterMap_cons, hcm, lastD]
      | some c => simp [commitLsnsOf, List.filterMap_cons, hcm, lastD]

theorem process_event_last_lsn (smart : Option Transform) (sendOk : Nat → Bool) (t : Int)
    (st : ConnState) (m : ReplicationMessage) (h : commitLsnOf m = none) :
    (process_event smart sendOk t st m).1.last_lsn = st.last_lsn := by
  cases m with
  | primaryKeepAlive w t2 r =>
      by_cases hr : r = 1
      · by_cases hsend : sendOk 0 = true <;> simp [process_event, hr, hsend]
      · simp [process_event, hr]
  | other => rfl
  | xLogData x =>
      cases hb : x.body with
      | commit f c el t2 => simp [commitLsnOf, hb] at h
      | insert rid vals =>
          cases hc : cacheLookup rid st.relations with
          | none => simp [process_event, convert_replication_event, hb, hc]
          | some cols =>
              simp only [process_event, convert_replication_event, hb, hc]
              split
              · rfl
              · simp [applyStateUpdate]
      | update rid old new =>
          cases hc : cacheLookup rid st.relations with
          | none => simp [process_event, convert_replication_event, hb, hc]
          | some cols =>
              simp only [process_event, convert_replication_event, hb, hc]
              split
              · rfl
              · simp [applyStateUpdate]
      | delete rid old =>
          cases hc : cacheLookup rid st.relations with
          | none => simp [process_event, convert_replication_event, hb, hc]
          | some cols =>
              simp only [process_event, convert_replication_event, hb, hc]
              split
              · rfl
              · simp [applyStateUpdate]
      | begin l t2 xid =>
          simp only [process_event, convert_replication_event, hb]
          split
          · rfl
          · simp [applyStateUpdate]
      | origin c n =>
          simp only [process_event, convert_replication_event, hb]
          split
          · rfl
          · simp [applyStateUpdate]
      | relation rel ns nm cols =>
          simp only [process_event, convert_replication_event, hb]
          split
          · rfl
          · simp [applyStateUpdate]
      | typeInfo tid ns nm =>
          simp only [process_event, convert_replication_event, hb]
          split
          · rfl
          · simp [applyStateUpdate]
      | truncate ids opts =>
          simp only [process_event, convert_replication_event, hb]
          split
          · rfl
          · simp [applyStateUpdate]

/-- C3 counterexample: the code assigns each Commit's `commit_lsn` to the
watermark unconditionally, so a session that receives Commit(5) then Commit(3)
ends with watermark 3 < 5 — the claim's unconditional non-decrease is false. -/
theorem c3_watermark_counterexample :
    ¬ ((runState none 0 ⟨[], 0⟩
          ([ReplicationMessage.xLogData ⟨1, 2, 0, PgLogicalMsg.commit 0 5 5 0⟩,
            ReplicationMessage.xLogData ⟨3, 4, 0, PgLogicalMsg.commit 0 3 3 0⟩].take 1)).last_lsn ≤
        (runState none 0 ⟨[], 0⟩
          ([ReplicationMessage.xLogData ⟨1, 2, 0, PgLogicalMsg.commit 0 5 5 0⟩,
            ReplicationMessage.xLogData ⟨3, 4, 0, PgLogicalMsg.commit 0 3 3 0⟩].take 2)).last_lsn) := by
  decide

/-- C3 (amended): the session watermark changes only when a Commit message is
processed; and provided the stream's Commit LSNs arrive in non-decreasing
order (as the WAL guarantees), the watermark after the later of two Commit
messages is greater than or equal to the watermark after the earlier one. -/
theorem c3_watermark_only_commits (msgs : List ReplicationMessage) (ts : Int) (init : Nat)
    (hs : (commitLsnsOf msgs).Pairwise (· ≤ ·))
    (i j : Nat) (hij : i < j) (hi : i < msgs.length) (hj : j < msgs.length)
    (ci cj : Nat) (hci : commitLsnOf msgs[i] = some ci)
    (hcj : commitLsnOf msgs[j] = some cj) :
    (∀ (smart : Option Transform) (sendOk : Nat → Bool) (t : Int) (st : ConnState)
        (m : ReplicationMessage),
        (process_event smart sendOk t st m).1.last_lsn ≠ st.last_lsn →
          (commitLsnOf m).isSome = true)
    ∧ (runState none ts ⟨[], init⟩ (msgs.take (i + 1))).last_lsn ≤
        (runState none ts ⟨[], init⟩ (msgs.take (j + 1))).last_lsn := by
  constructor
  · intro smart sendOk t st m hne
    cases hcm : commitLsnOf m with
    | none => exact absurd (process_event_last_lsn smart sendOk t st m hcm) hne
    | some c => rfl
  · rw [runState_last_lsn, runState_last_lsn, wmOf_lastD, wmOf_lastD]
    have hti : msgs.take (i + 1) = msgs.take i ++ [msgs[i]] := by
      rw [List.take_succ, List.getElem?_eq_getElem hi]
      rfl
    have htj : msgs.take (j + 1) = msgs.take j ++ [msgs[j]] := by
      rw [List.take_succ, List.getElem?_eq_getElem hj]
      rfl
    have hCi : commitLsnsOf (msgs.take (i + 1)) = commitLsnsOf (msgs.take i) ++ [ci] := by
      rw [hti, commitLsnsOf_append]
      congr 1
      simp [commitLsnsOf, List.filterMap_cons, hci]
    have hCj : commitLsnsOf (msgs.take (j + 1)) = commitLsnsOf (msgs.take j) ++ [cj] := by
      rw [htj, commitLsnsOf_append]
      congr 1
      simp [commitLsnsOf, List.filterMap_cons, hcj]
    rw [hCi, hCj, lastD_concat, lastD_concat]
    have hPD : (commitLsnsOf (msgs.take (j + 1))).Pairwise (· ≤ ·) := by
      have hsplit : commitLsnsOf msgs =
          commitLsnsOf (msgs.take (j + 1)) ++ commitLsnsOf (msgs.drop (j + 1)) := by
        rw [← commitLsnsOf_append, List.take_append_drop]
      rw [hsplit] at hs
      exact (List.pairwise_append.mp hs).1
    have hciD : ci ∈ commitLsnsOf (msgs.take (j + 1)) := by
      have hshape : msgs.take (j + 1) =
          msgs.take (i + 1) ++ (msgs.take (j + 1)).drop (i + 1) := by
        conv_lhs => rw [← List.take_append_drop (i + 1) (msgs.take (j + 1))]
        rw [List.take_take]
        congr 2
        omega
      rw [hshape, commitLsnsOf_append, hCi]
      exact List.mem_append_left _ (List.mem_append_right _ (List.mem_singleton_self ci))
    rw [hCj] at hPD hciD
    rcases List.mem_append.mp hciD with hmem | hmem
    · exact (List.pairwise_append.mp hPD).2.2 ci hmem cj (List.mem_singleton_self cj)
    · rw [List.mem_singleton.mp hmem]

/-- C3 witness: Commit(3) then Commit(5), sorted, gives watermark 3 then 5. -/
theorem c3_watermark_only_commits_witness :
    (∀ (smart : Option Transform) (sendOk : Nat → Bool) (t : Int) (st : ConnState)
        (m : ReplicationMessage),
        (process_event smart sendOk t st m).1.last_lsn ≠ st.last_lsn →
          (commitLsnOf m).isSome = true)
    ∧ (runState none 0 ⟨[], 0⟩
          ([ReplicationMessage.xLogData ⟨1, 2, 0, PgLogicalMsg.commit 0 3 3 0⟩,
            ReplicationMessage.xLogData ⟨3, 4, 0, PgLogicalMsg.commit 0 5 5 0⟩].take (0 + 1))).last_lsn ≤
        (runState none 0 ⟨[], 0⟩
          ([ReplicationMessage.xLogData ⟨1, 2, 0, PgLogicalMsg.commit 0 3 3 0⟩,
            ReplicationMessage.xLogData ⟨3, 4, 0, PgLogicalMsg.commit 0 5 5 0⟩].take (1 + 1))).last_lsn :=
  c3_watermark_only_commits
    [ReplicationMessage.xLogData ⟨1, 2, 0, PgLogicalMsg.commit 0 3 3 0⟩,
      ReplicationMessage.xLogData ⟨3, 4, 0, PgLogicalMsg.commit 0 5 5 0⟩] 0 0
    (by decide) 0 1 (by decide) (by decide) (by decide) 3 5 (by decide) (by decide)
